import Mathlib

/-!
Verification of the MCP sandbox core of the asana-cli repository: the
execution host in src/mcp/sandbox.ts, the worker bridge and rate limiter in
src/mcp/bridge.ts, and the session store in src/mcp/session.ts.

Embedding choices:
- JavaScript values crossing the worker bridge are modelled by JSValue, with
  the JavaScript undefined kept distinct from null.
- The asynchronous host is modelled as a state machine. executeInSandbox in
  sandbox.ts registers listeners for worker messages, for a worker error
  event, and for the abort signal of the timeout; the model folds a list of
  HostEvent over hostStep, one event per listener firing, in delivery order.
- Wall-clock time is explicit: RateLimiter.acquire takes the current time and
  returns the new recorded timestamp list together with the waited duration
  (Bun.sleep is modelled as exact passage of that duration).
- The SDK operations bound into the dispatch table perform network requests,
  so each table entry is abstracted as a function from the call arguments to
  either a value or a thrown error; the key set and the whole routing logic
  around the entries are taken from bridge.ts.
- The user script running inside the worker is modelled by the messages it
  emits plus its final outcome (completion value or thrown value); a tiny
  statement language SStmt provides the concrete example scripts.
-/

/-- JSON-style values exchanged between the worker and the host. The
constructor undef models the JavaScript undefined, which is distinct from
null and is not JSON-serializable. -/
inductive JSValue : Type
  | undef
  | null
  | bool (b : Bool)
  | num (n : Int)
  | str (s : String)
deriving DecidableEq, Repr

/-- Error payload carried by fatal messages, error responses and failed
results: a message plus optional code and fix, mirroring the error object
shape used in sandbox.ts and bridge.ts. -/
structure SandboxErrorInfo : Type where
  message : String
  code : Option String := none
  fix : Option String := none
deriving DecidableEq, Repr

/-- Result type of executeInSandbox (SandboxResult in sandbox.ts): either an
ok result with a value, or a failure with a structured error; both carry the
collected progress messages. -/
inductive SandboxResult : Type
  | ok (value : JSValue) (progressMessages : List String)
  | err (error : SandboxErrorInfo) (progressMessages : List String)
deriving DecidableEq, Repr

/-- Discriminant of the two SandboxResult branches. -/
def SandboxResult.isOk : SandboxResult → Bool
  | .ok _ _ => true
  | .err _ _ => false

/-- WorkerCallMessage from types.ts: a call request posted by the worker. The
field ns embeds the source field named namespace, which is a Lean keyword. -/
structure WorkerCallMessage : Type where
  id : Nat
  ns : String
  method : String
  args : List JSValue
deriving DecidableEq, Repr

/-- WorkerToMainMessage from types.ts: everything the worker can post to the
main thread. -/
inductive WorkerToMainMessage : Type
  | call (c : WorkerCallMessage)
  | progress (message : String)
  | sessionUpdate (key : String) (value : JSValue)
  | done (value : JSValue)
  | fatal (error : SandboxErrorInfo)
deriving DecidableEq, Repr

/-- MainToWorkerMessage from types.ts: the response the main thread posts
back for one call id. -/
inductive MainToWorkerMessage : Type
  | result (id : Nat) (value : JSValue)
  | error (id : Nat) (error : SandboxErrorInfo)
deriving DecidableEq, Repr

/-- A JavaScript thrown value as observed by the catch handlers: either an
Error-like object carrying a message (with optional code and fix fields and a
string rendering), or any other value with only its string rendering. -/
inductive JSThrown : Type
  | errObj (message : String) (code : Option String) (fix : Option String) (asString : String)
  | nonError (asString : String)
deriving DecidableEq, Repr

/-- Extraction of a structured error payload from a thrown value. The catch
branch of the worker wrapper (sandbox.ts, buildWorkerScript: err.message with
a String(err) fallback, plus code and fix) and the catch branch of
handleWorkerCall (bridge.ts) both produce this shape on the two JSThrown
cases. -/
def thrownToErrorInfo : JSThrown → SandboxErrorInfo
  | .errObj m c f _ => { message := m, code := c, fix := f }
  | .nonError s => { message := s, code := none, fix := none }

/-- Boolean test that the needle occurs at the start of the haystack
(character lists). -/
def startsWithChars : List Char → List Char → Bool
  | _, [] => true
  | [], _ :: _ => false
  | b :: bs, a :: as => a == b && startsWithChars bs as

/-- Boolean test that the needle occurs somewhere inside the haystack
(character lists). -/
def containsChars : List Char → List Char → Bool
  | [], needle => needle.isEmpty
  | b :: bs, needle => startsWithChars (b :: bs) needle || containsChars bs needle

/-- Boolean substring test on strings, used to state that an error message
names a key or a duration. -/
def strContains (s pat : String) : Bool :=
  containsChars s.data pat.data

/-- JavaScript Array.prototype.join with a separator, used by bridge.ts to
list the registered dispatch keys in the fix string. -/
def joinStrings (sep : String) : List String → String
  | [] => ""
  | [s] => s
  | s :: rest => s ++ sep ++ joinStrings sep rest

/-- Outcome-level abstraction of one bound SDK operation: the real functions
in buildDispatchTable perform network requests, so an entry is a function
from the call arguments to a value or a thrown error. -/
abbrev DispatchFn : Type := List JSValue → Except JSThrown JSValue

/-- The dispatch table of bridge.ts: an insertion-ordered map from
"namespace.method" keys to bound SDK operations. -/
abbrev DispatchTable : Type := List (String × DispatchFn)

/-- Map.get on the table: first binding of an exactly matching key. -/
def findFn : DispatchTable → String → Option DispatchFn
  | [], _ => none
  | (k, f) :: rest, key => if k = key then some f else findFn rest key

/-- The keys bound by buildDispatchTable in bridge.ts, in insertion order. -/
def dispatchKeys : List String :=
  ["tasks.list", "tasks.listProject", "tasks.get", "tasks.add",
   "tasks.complete", "tasks.reopen", "tasks.update", "tasks.delete",
   "tasks.addToProject", "tasks.removeFromProject",
   "projects.list", "projects.get", "projects.add",
   "sections.list", "sections.add", "sections.moveTask",
   "comments.list", "comments.add", "comments.update", "comments.delete",
   "users.me", "users.list", "tags.list",
   "workspace.gid", "workspace.info",
   "refs.resolveTask", "refs.resolveProject",
   "deps.get", "deps.add", "deps.remove",
   "plan.run"]

/-- createDispatchTable from bridge.ts, with the network-bound SDK functions
abstracted by impl; the key set is the source one. -/
def createDispatchTable (impl : String → DispatchFn) : DispatchTable :=
  dispatchKeys.map (fun k => (k, impl k))

/-- handleWorkerCall from bridge.ts: look the "namespace.method" key up in
the dispatch table; on a miss answer an INVALID_INPUT error naming the key
and listing every registered key; on a hit await rate-limiter admission
(blocking, it never fails, so it does not affect the returned message), run
the bound operation, and turn its outcome into a result or error response
carrying the call id. -/
def handleWorkerCall (table : DispatchTable) (msg : WorkerCallMessage) : MainToWorkerMessage :=
  match findFn table (msg.ns ++ "." ++ msg.method) with
  | none =>
      .error msg.id
        { message := "Unknown SDK method: " ++ (msg.ns ++ "." ++ msg.method),
          code := some "INVALID_INPUT",
          fix := some ("Use one of the documented asana.* methods. Available: "
            ++ joinStrings ", " (table.map Prod.fst)) }
  | some f =>
      match f msg.args with
      | .ok v => .result msg.id v
      | .error e => .error msg.id (thrownToErrorInfo e)

/-- RATE_LIMIT_RPM from bridge.ts. -/
def RATE_LIMIT_RPM : Nat := 150

/-- RATE_WINDOW_MS from bridge.ts. -/
def RATE_WINDOW_MS : Int := 60000

/-- Result of one RateLimiter.acquire call: the updated timestamp list and
how long the call suspended before returning (0 when admitted at once). -/
structure AcquireStep : Type where
  timestamps : List Int
  waited : Int
deriving DecidableEq, Repr

/-- RateLimiter.acquire from bridge.ts: shift timestamps from the front while
they are older than now minus the window, then either record now and return
at once (when fewer than RATE_LIMIT_RPM remain), or sleep for
window - (now - oldest) + 10 milliseconds and record the post-wait time.
Bun.sleep is modelled as exact passage of the waited duration, so the
post-wait Date.now() is now + wait. -/
def RateLimiter.acquire (timestamps : List Int) (now : Int) : AcquireStep :=
  let kept := timestamps.dropWhile (fun t => decide (t < now - RATE_WINDOW_MS))
  if RATE_LIMIT_RPM ≤ kept.length then
    let oldest := kept.headD now
    let wait := RATE_WINDOW_MS - (now - oldest) + 10
    { timestamps := kept ++ [now + wait], waited := wait }
  else
    { timestamps := kept ++ [now], waited := 0 }

/-- Timestamps surviving the eviction of everything older than now minus the
window; used to state what acquire keeps. -/
def evictOld (ts : List Int) (now : Int) : List Int :=
  ts.filter (fun t => decide (now - RATE_WINDOW_MS ≤ t))

/-- SessionState from session.ts: a Map from string keys to JSON values,
modelled as its insertion-ordered entry list with unique keys. -/
abbrev Session : Type := List (String × JSValue)

/-- Map.prototype.set semantics: replace the first binding of the key in
place, or append a new binding at the end. -/
def mapSet : Session → String → JSValue → Session
  | [], k, v => [(k, v)]
  | (k2, v2) :: rest, k, v =>
      if k2 = k then (k, v) :: rest else (k2, v2) :: mapSet rest k v

/-- Lookup of a key in an entry list (first match wins, as in a Map or in the
object produced by Object.fromEntries on a duplicate-free entry list). -/
def getMap : Session → String → Option JSValue
  | [], _ => none
  | (k2, v2) :: rest, k => if k2 = k then some v2 else getMap rest k

/-- applySessionUpdate from session.ts: session.set(key, value). -/
def applySessionUpdate (s : Session) (key : String) (value : JSValue) : Session :=
  mapSet s key value

/-- snapshotSession from session.ts: Object.fromEntries(session.entries()),
the identity on the entry list. -/
def snapshotSession (s : Session) : Session := s

/-- First defined option, used to state lookup through list append. -/
def firstSome : Option JSValue → Option JSValue → Option JSValue
  | some v, _ => some v
  | none, b => b

/-- DEFAULT_TIMEOUT_MS from sandbox.ts. -/
def DEFAULT_TIMEOUT_MS : Nat := 30000

/-- SandboxOpts from sandbox.ts. The caller configures the execution time
limit by passing an AbortSignal (typically AbortSignal.timeout(T));
timeoutMs records that duration T. executeInSandbox only subscribes to the
abort event of the signal, so the configured duration never reaches the
produced result text: the timeout message interpolates the constant
DEFAULT_TIMEOUT_MS. hasOnProgress records whether opts.onProgress was
supplied. -/
structure SandboxOpts : Type where
  timeoutMs : Nat := DEFAULT_TIMEOUT_MS
  hasOnProgress : Bool := false
deriving DecidableEq, Repr

/-- One firing of a listener registered by executeInSandbox: a message event
from the worker, the worker error event (with the optional event.message), or
the abort event of the timeout signal. -/
inductive HostEvent : Type
  | workerMsg (m : WorkerToMainMessage)
  | workerError (message : Option String)
  | abort
deriving DecidableEq, Repr

/-- State of one executeInSandbox invocation: the settled guard, the resolved
result, the collected progress messages, the calls made to a caller-supplied
onProgress callback, the live session store, the responses posted back to the
worker, and teardown counters for worker.terminate() and
URL.revokeObjectURL(blobUrl). -/
structure HostState : Type where
  settled : Bool
  result : Option SandboxResult
  progressMessages : List String
  externalProgress : List String
  session : Session
  sentToWorker : List MainToWorkerMessage
  terminateCount : Nat
  revokeCount : Nat
  workerCreated : Bool
deriving DecidableEq, Repr

/-- State at the start of the returned promise body of executeInSandbox. -/
def initialHostState (session : Session) (workerCreated : Bool) : HostState :=
  { settled := false, result := none, progressMessages := [],
    externalProgress := [], session := session, sentToWorker := [],
    terminateCount := 0, revokeCount := 0, workerCreated := workerCreated }

/-- settle from sandbox.ts: a no-op when already settled; otherwise set the
guard, terminate the worker when one exists, revoke the blob URL, and resolve
with the given result. -/
def settle (s : HostState) (r : SandboxResult) : HostState :=
  if s.settled then s
  else
    { s with settled := true,
             terminateCount := s.terminateCount + (if s.workerCreated then 1 else 0),
             revokeCount := s.revokeCount + 1,
             result := some r }

/-- The result built by the abort listener of executeInSandbox: the message
interpolates DEFAULT_TIMEOUT_MS (not the caller-configured duration), with
code COMMAND_FAILED and a remediation fix. -/
def timeoutResult (progressMessages : List String) : SandboxResult :=
  .err { message := "Script timed out after " ++ toString DEFAULT_TIMEOUT_MS ++ "ms",
         code := some "COMMAND_FAILED",
         fix := some "Break the script into smaller steps or increase the timeout." }
    progressMessages

/-- One event processed by the listeners of executeInSandbox, in registration
order. A message event first runs the createMessageHandler listener (route a
call through handleWorkerCall and post the response, record a progress
message and invoke onProgress — which defaults to recording into
progressMessages again when the caller supplied no callback — or apply a
session update), then the done/fatal watcher, which settles. The worker error
event and the abort event settle with their respective failure results. -/
def hostStep (opts : SandboxOpts) (table : DispatchTable) (s : HostState) (e : HostEvent) : HostState :=
  match e with
  | .workerMsg m =>
      let s1 :=
        match m with
        | .call c => { s with sentToWorker := s.sentToWorker ++ [handleWorkerCall table c] }
        | .progress msg =>
            let s2 := { s with progressMessages := s.progressMessages ++ [msg] }
            if opts.hasOnProgress then
              { s2 with externalProgress := s2.externalProgress ++ [msg] }
            else
              { s2 with progressMessages := s2.progressMessages ++ [msg] }
        | .sessionUpdate k v => { s with session := applySessionUpdate s.session k v }
        | .done _ => s
        | .fatal _ => s
      match m with
      | .done v => settle s1 (.ok v s1.progressMessages)
      | .fatal e2 => settle s1 (.err e2 s1.progressMessages)
      | _ => s1
  | .workerError m =>
      settle s (.err { message := m.getD "Worker error" } s.progressMessages)
  | .abort => settle s (timeoutResult s.progressMessages)

/-- executeInSandbox as a state machine: when worker creation failed the
catch branch settles at once with the creation error and no listener is ever
attached (the events are never delivered); otherwise the delivered events are
folded over hostStep from the initial state. -/
def runHost (opts : SandboxOpts) (table : DispatchTable) (creationFailed : Option String)
    (session : Session) (events : List HostEvent) : HostState :=
  match creationFailed with
  | some m =>
      settle (initialHostState session false)
        (.err { message := "Failed to create worker: " ++ m } [])
  | none => events.foldl (hostStep opts table) (initialHostState session true)

/-- An event that makes executeInSandbox settle: a done or fatal message, the
worker error event, or the abort of the timeout signal. -/
def settlesEvent : HostEvent → Bool
  | .workerMsg (.done _) => true
  | .workerMsg (.fatal _) => true
  | .workerError _ => true
  | .abort => true
  | _ => false

/-- Worker messages a running script can emit before its entry point
finishes: everything except done and fatal. -/
def nonTerminal (m : WorkerToMainMessage) : Bool :=
  match m with
  | .done _ => false
  | .fatal _ => false
  | _ => true

/-- Expressions of the tiny script language used for the concrete example
scripts; add is JavaScript numeric addition (the examples only add
numbers). -/
inductive SExpr : Type
  | lit (v : JSValue)
  | add (a b : SExpr)
deriving DecidableEq, Repr

/-- Evaluation of script expressions. -/
def evalSExpr : SExpr → JSValue
  | .lit v => v
  | .add a b =>
      match evalSExpr a, evalSExpr b with
      | .num x, .num y => .num (x + y)
      | _, _ => JSValue.undef

/-- Statements of the tiny script language: progress(s), context.k = e (the
context proxy posts a session-update message), return e, and throw. -/
inductive SStmt : Type
  | progressS (s : String)
  | setContext (k : String) (e : SExpr)
  | ret (e : SExpr)
  | throwS (t : JSThrown)
deriving DecidableEq, Repr

/-- How the wrapped entry point of buildWorkerScript ends: completion with a
value (undefined when the script falls off the end), or a thrown value. -/
inductive ScriptOutcome : Type
  | completes (v : JSValue)
  | throws (t : JSThrown)
deriving DecidableEq, Repr

/-- Run the script statements in order, collecting the messages they post;
return and throw stop execution, and a script without return completes with
undefined. -/
def runScript : List SStmt → List WorkerToMainMessage × ScriptOutcome
  | [] => ([], ScriptOutcome.completes JSValue.undef)
  | .progressS s :: rest =>
      let r := runScript rest
      (.progress s :: r.1, r.2)
  | .setContext k e :: rest =>
      let r := runScript rest
      (.sessionUpdate k (evalSExpr e) :: r.1, r.2)
  | .ret e :: _ => ([], .completes (evalSExpr e))
  | .throwS t :: _ => ([], .throws t)

/-- The result ?? null coalescing applied by the worker wrapper before
posting done (buildWorkerScript in sandbox.ts). -/
def coalesceToNull : JSValue → JSValue
  | JSValue.undef => JSValue.null
  | JSValue.null => JSValue.null
  | v => v

/-- The final message posted by the wrapper of buildWorkerScript: done with
the null-coalesced value on completion, fatal with the extracted error on a
throw. -/
def workerFinalMessage : ScriptOutcome → WorkerToMainMessage
  | .completes v => .done (coalesceToNull v)
  | .throws t => .fatal (thrownToErrorInfo t)

/-- All messages the worker posts for one script: the messages emitted while
running, then the final done or fatal message. -/
def workerMessages (stmts : List SStmt) : List WorkerToMainMessage :=
  (runScript stmts).1 ++ [workerFinalMessage (runScript stmts).2]

/-- executeInSandbox from sandbox.ts on a script of the tiny language, on the
happy path where the worker starts and delivers exactly the script messages
(no abort, no worker error). -/
def executeInSandbox (userCode : List SStmt) (table : DispatchTable)
    (session : Session) (opts : SandboxOpts) : HostState :=
  runHost opts table none session ((workerMessages userCode).map HostEvent.workerMsg)

/-! Helper lemmas about the string utilities. -/

theorem strData_append (s t : String) : (s ++ t).data = s.data ++ t.data := by
  cases s; cases t; rfl

theorem startsWithChars_refl (l : List Char) : startsWithChars l l = true := by
  induction l with
  | nil => rfl
  | cons a as ih => simp [startsWithChars, ih]

theorem startsWithChars_append (hay ext needle : List Char)
    (h : startsWithChars hay needle = true) :
    startsWithChars (hay ++ ext) needle = true := by
  induction needle generalizing hay with
  | nil => simp [startsWithChars]
  | cons a as ih =>
      cases hay with
      | nil => simp [startsWithChars] at h
      | cons b bs =>
          simp only [startsWithChars, Bool.and_eq_true] at h
          simp only [List.cons_append, startsWithChars, Bool.and_eq_true]
          exact ⟨h.1, ih bs h.2⟩

theorem containsChars_nil_needle (hay : List Char) : containsChars hay [] = true := by
  cases hay with
  | nil => rfl
  | cons b bs => simp [containsChars, startsWithChars]

theorem containsChars_append_right (hay1 hay2 needle : List Char)
    (h : containsChars hay2 needle = true) :
    containsChars (hay1 ++ hay2) needle = true := by
  induction hay1 with
  | nil => simpa using h
  | cons b bs ih =>
      cases hn : needle with
      | nil => simpa [hn] using containsChars_nil_needle (b :: (bs ++ hay2))
      | cons a as =>
          simp only [List.cons_append, containsChars, Bool.or_eq_true]
          exact Or.inr (by simpa [hn] using ih)

theorem containsChars_append_left (hay1 hay2 needle : List Char)
    (h : containsChars hay1 needle = true) :
    containsChars (hay1 ++ hay2) needle = true := by
  induction hay1 with
  | nil =>
      simp only [containsChars] at h
      have : needle = [] := by
        cases needle with
        | nil => rfl
        | cons a as => simp [List.isEmpty] at h
      subst this
      simpa using containsChars_nil_needle hay2
  | cons b bs ih =>
      simp only [containsChars, Bool.or_eq_true] at h
      simp only [List.cons_append, containsChars, Bool.or_eq_true]
      cases h with
      | inl h1 =>
          exact Or.inl (by
            have := startsWithChars_append (b :: bs) hay2 needle h1
            simpa using this)
      | inr h2 => exact Or.inr (ih h2)

theorem containsChars_self (l : List Char) : containsChars l l = true := by
  cases l with
  | nil => rfl
  | cons a as =>
      simp only [containsChars, Bool.or_eq_true]
      exact Or.inl (startsWithChars_refl (a :: as))

theorem strContains_refl (s : String) : strContains s s = true :=
  containsChars_self s.data

theorem strContains_append_left (s t pat : String)
    (h : strContains s pat = true) : strContains (s ++ t) pat = true := by
  unfold strContains at h ⊢
  rw [strData_append]
  exact containsChars_append_left s.data t.data pat.data h

theorem strContains_append_right (s t pat : String)
    (h : strContains t pat = true) : strContains (s ++ t) pat = true := by
  unfold strContains at h ⊢
  rw [strData_append]
  exact containsChars_append_right s.data t.data pat.data h

theorem strContains_joinStrings (sep : String) (ks : List String) (k : String)
    (h : k ∈ ks) : strContains (joinStrings sep ks) k = true := by
  induction ks with
  | nil => cases h
  | cons s rest ih =>
      cases rest with
      | nil =>
          have hk : k = s := by simpa using h
          subst hk
          simpa [joinStrings] using strContains_refl k
      | cons r rs =>
          rcases List.mem_cons.mp h with hk | hk
          · subst hk
            show strContains (k ++ sep ++ joinStrings sep (r :: rs)) k = true
            exact strContains_append_left _ _ _ (strContains_append_left _ _ _ (strContains_refl k))
          · show strContains (s ++ sep ++ joinStrings sep (r :: rs)) k = true
            exact strContains_append_right _ _ _ (ih hk)

/-! Helper lemmas about the session store. -/

theorem getMap_mapSet (s : Session) (k : String) (v : JSValue) (k2 : String) :
    getMap (mapSet s k v) k2 = if k = k2 then some v else getMap s k2 := by
  induction s with
  | nil => simp [mapSet, getMap]
  | cons p rest ih =>
      obtain ⟨ka, va⟩ := p
      by_cases hka : ka = k
      · subst hka
        by_cases hk2 : ka = k2
        · subst hk2
          simp [mapSet, getMap]
        · simp [mapSet, getMap, hk2]
      · by_cases hk2 : ka = k2
        · subst hk2
          have : ¬ k = ka := fun h => hka h.symm
          simp [mapSet, getMap, hka, this]
        · simp [mapSet, getMap, hka, hk2, ih]

theorem getMap_append (l1 l2 : Session) (k : String) :
    getMap (l1 ++ l2) k = firstSome (getMap l1 k) (getMap l2 k) := by
  induction l1 with
  | nil => simp [getMap, firstSome]
  | cons p rest ih =>
      obtain ⟨ka, va⟩ := p
      by_cases hk : ka = k
      · simp [getMap, hk, firstSome]
      · simp [getMap, hk, ih]

/-! Helper lemmas about the host state machine. -/

theorem settle_of_settled (s : HostState) (r : SandboxResult) (h : s.settled = true) :
    settle s r = s := by
  simp [settle, h]

theorem settle_of_unsettled (s : HostState) (r : SandboxResult) (h : s.settled = false) :
    settle s r
      = { s with settled := true,
                 terminateCount := s.terminateCount + (if s.workerCreated then 1 else 0),
                 revokeCount := s.revokeCount + 1,
                 result := some r } := by
  simp [settle, h]

theorem hostStep_frozen (opts : SandboxOpts) (table : DispatchTable)
    (s : HostState) (e : HostEvent) (h : s.settled = true) :
    (hostStep opts table s e).settled = true
    ∧ (hostStep opts table s e).result = s.result
    ∧ (hostStep opts table s e).terminateCount = s.terminateCount
    ∧ (hostStep opts table s e).revokeCount = s.revokeCount := by
  cases e with
  | workerMsg m =>
      cases m with
      | call c => simp [hostStep, h]
      | progress msg =>
          by_cases hc : opts.hasOnProgress <;> simp [hostStep, h, hc]
      | sessionUpdate k v => simp [hostStep, h]
      | done v => simp [hostStep, settle, h]
      | fatal e2 => simp [hostStep, settle, h]
  | workerError m => simp [hostStep, settle, h]
  | abort => simp [hostStep, settle, h]

theorem foldl_hostStep_frozen (opts : SandboxOpts) (table : DispatchTable)
    (s : HostState) (es : List HostEvent) (h : s.settled = true) :
    (List.foldl (hostStep opts table) s es).settled = true
    ∧ (List.foldl (hostStep opts table) s es).result = s.result
    ∧ (List.foldl (hostStep opts table) s es).terminateCount = s.terminateCount
    ∧ (List.foldl (hostStep opts table) s es).revokeCount = s.revokeCount := by
  induction es generalizing s with
  | nil => exact ⟨h, rfl, rfl, rfl⟩
  | cons e rest ih =>
      have hstep := hostStep_frozen opts table s e h
      have hrest := ih (hostStep opts table s e) hstep.1
      refine ⟨hrest.1, ?_, ?_, ?_⟩
      · rw [List.foldl_cons] at *
        exact hrest.2.1.trans hstep.2.1
      · rw [List.foldl_cons] at *
        exact hrest.2.2.1.trans hstep.2.2.1
      · rw [List.foldl_cons] at *
        exact hrest.2.2.2.trans hstep.2.2.2

theorem hostStep_settling (opts : SandboxOpts) (table : DispatchTable)
    (s : HostState) (e : HostEvent) (hs : s.settled = false)
    (he : settlesEvent e = true) :
    (hostStep opts table s e).settled = true
    ∧ (hostStep opts table s e).result.isSome = true
    ∧ (hostStep opts table s e).terminateCount
        = s.terminateCount + (if s.workerCreated then 1 else 0)
    ∧ (hostStep opts table s e).revokeCount = s.revokeCount + 1 := by
  cases e with
  | workerMsg m =>
      cases m with
      | call c => simp [settlesEvent] at he
      | progress msg => simp [settlesEvent] at he
      | sessionUpdate k v => simp [settlesEvent] at he
      | done v => simp [hostStep, settle, hs]
      | fatal e2 => simp [hostStep, settle, hs]
  | workerError m => simp [hostStep, settle, hs]
  | abort => simp [hostStep, settle, hs]

theorem hostStep_isSome_mono (opts : SandboxOpts) (table : DispatchTable)
    (s : HostState) (e : HostEvent)
    (h : s.settled = true → s.result.isSome = true) :
    (hostStep opts table s e).settled = true → (hostStep opts table s e).result.isSome = true := by
  intro hset
  cases hs : s.settled with
  | true =>
      have hf := hostStep_frozen opts table s e hs
      rw [hf.2.1]
      exact h hs
  | false =>
      cases he : settlesEvent e with
      | true => exact (hostStep_settling opts table s e hs he).2.1
      | false =>
          exfalso
          cases e with
          | workerMsg m =>
              cases m with
              | call c =>
                  simp [hostStep, hs] at hset
              | progress msg =>
                  by_cases hc : opts.hasOnProgress <;> simp [hostStep, hs, hc] at hset
              | sessionUpdate k v =>
                  simp [hostStep, hs] at hset
              | done v => simp [settlesEvent] at he
              | fatal e2 => simp [settlesEvent] at he
          | workerError m => simp [settlesEvent] at he
          | abort => simp [settlesEvent] at he

theorem foldl_hostStep_isSome (opts : SandboxOpts) (table : DispatchTable)
    (s : HostState) (es : List HostEvent)
    (h : s.settled = true → s.result.isSome = true) :
    (List.foldl (hostStep opts table) s es).settled = true →
      (List.foldl (hostStep opts table) s es).result.isSome = true := by
  induction es generalizing s with
  | nil => exact h
  | cons e rest ih =>
      rw [List.foldl_cons]
      exact ih (hostStep opts table s e) (hostStep_isSome_mono opts table s e h)

theorem foldl_hostStep_settled_of_mem (opts : SandboxOpts) (table : DispatchTable)
    (es : List HostEvent) (h : ∃ e, e ∈ es ∧ settlesEvent e = true) :
    ∀ s : HostState, (List.foldl (hostStep opts table) s es).settled = true := by
  induction es with
  | nil =>
      obtain ⟨e, he, _⟩ := h
      cases he
  | cons e rest ih =>
      intro s
      obtain ⟨e2, he2, hset⟩ := h
      rw [List.foldl_cons]
      rcases List.mem_cons.mp he2 with h1 | h1
      · subst h1
        cases hs : s.settled with
        | true =>
            have h2 := hostStep_frozen opts table s e2 hs
            exact (foldl_hostStep_frozen opts table _ rest h2.1).1
        | false =>
            have h2 := hostStep_settling opts table s e2 hs hset
            exact (foldl_hostStep_frozen opts table _ rest h2.1).1
      · exact ih ⟨e2, h1, hset⟩ (hostStep opts table s e)

theorem hostStep_nonTerminal_settled (opts : SandboxOpts) (table : DispatchTable)
    (s : HostState) (m : WorkerToMainMessage) (h : nonTerminal m = true) :
    (hostStep opts table s (HostEvent.workerMsg m)).settled = s.settled := by
  cases m with
  | call c => simp [hostStep]
  | progress msg => by_cases hc : opts.hasOnProgress <;> simp [hostStep, hc]
  | sessionUpdate k v => simp [hostStep]
  | done v => simp [nonTerminal] at h
  | fatal e2 => simp [nonTerminal] at h

theorem foldl_nonTerminal_settled (opts : SandboxOpts) (table : DispatchTable)
    (ms : List WorkerToMainMessage) (h : ∀ m ∈ ms, nonTerminal m = true) :
    ∀ s : HostState,
      (List.foldl (hostStep opts table) s (ms.map HostEvent.workerMsg)).settled = s.settled := by
  induction ms with
  | nil => intro s; rfl
  | cons m rest ih =>
      intro s
      rw [List.map_cons, List.foldl_cons]
      rw [ih (fun m2 hm2 => h m2 (List.mem_cons_of_mem m hm2)) (hostStep opts table s (HostEvent.workerMsg m))]
      exact hostStep_nonTerminal_settled opts table s m (h m (List.mem_cons_self m rest))

theorem hostStep_done_result (opts : SandboxOpts) (table : DispatchTable)
    (s : HostState) (v : JSValue) (hs : s.settled = false) :
    (hostStep opts table s (HostEvent.workerMsg (WorkerToMainMessage.done v))).result
      = some (SandboxResult.ok v s.progressMessages) := by
  simp [hostStep, settle, hs]

theorem hostStep_fatal_result (opts : SandboxOpts) (table : DispatchTable)
    (s : HostState) (e2 : SandboxErrorInfo) (hs : s.settled = false) :
    (hostStep opts table s (HostEvent.workerMsg (WorkerToMainMessage.fatal e2))).result
      = some (SandboxResult.err e2 s.progressMessages) := by
  simp [hostStep, settle, hs]

theorem coalesceToNull_of_ne_undef (v : JSValue) (h : v ≠ JSValue.undef) :
    coalesceToNull v = v := by
  cases v with
  | undef => exact absurd rfl h
  | null => rfl
  | bool b => rfl
  | num n => rfl
  | str s => rfl

theorem findFn_eq_none (table : DispatchTable) (key : String)
    (h : key ∉ table.map Prod.fst) : findFn table key = none := by
  induction table with
  | nil => rfl
  | cons p rest ih =>
      obtain ⟨k, f⟩ := p
      simp only [List.map_cons, List.mem_cons] at h
      push_neg at h
      simp only [findFn]
      rw [if_neg (fun hk => h.1 hk.symm)]
      exact ih h.2

/-! Helper lemmas about the rate limiter. -/

theorem dropWhile_lt_eq_filter (c : Int) (ts : List Int)
    (hsorted : List.Pairwise (fun a b => a ≤ b) ts) :
    ts.dropWhile (fun t => decide (t < c)) = ts.filter (fun t => decide (c ≤ t)) := by
  induction ts with
  | nil => rfl
  | cons a l ih =>
      have hp := List.pairwise_cons.mp hsorted
      by_cases hac : a < c
      · have hnotle : ¬ c ≤ a := not_le.mpr hac
        simp only [List.dropWhile_cons, List.filter_cons, hac, hnotle,
          decide_True, decide_False, if_true, if_false]
        exact ih hp.2
      · have hca : c ≤ a := not_lt.mp hac
        have h1 : List.filter (fun t => decide (c ≤ t)) l = l :=
          List.filter_eq_self.mpr (fun b hb => decide_eq_true (le_trans hca (hp.1 b hb)))
        simp [List.dropWhile_cons, List.filter_cons, hac, hca, h1]

/-! Claim theorems. -/

/-- C1: executeInSandbox always resolves with a SandboxResult and never
rejects or throws. Whenever any settling event is delivered the run produces
a result; worker-creation failure settles at once with an ok:false result;
from an unsettled state the timeout abort, the worker error event and a
fatal message each settle with the corresponding ok:false result; and a call
message never settles the invocation — an unknown dispatch method or a
dispatch failure is answered to the worker through handleWorkerCall (whence
an uncaught rejection inside the script reaches the host only as a fatal
message, covered by the fatal case). -/
theorem executeInSandbox_never_rejects
    (opts : SandboxOpts) (table : DispatchTable) (sess : Session) (events : List HostEvent) :
    ((∃ e, e ∈ events ∧ settlesEvent e = true) →
        (runHost opts table none sess events).result.isSome = true)
    ∧ (∀ emsg, (runHost opts table (some emsg) sess events).result
        = some (SandboxResult.err { message := "Failed to create worker: " ++ emsg } []))
    ∧ (∀ s : HostState, s.settled = false →
        (hostStep opts table s HostEvent.abort).result = some (timeoutResult s.progressMessages)
        ∧ (∀ m, (hostStep opts table s (HostEvent.workerError m)).result
            = some (SandboxResult.err { message := m.getD "Worker error" } s.progressMessages))
        ∧ (∀ e2, (hostStep opts table s (HostEvent.workerMsg (WorkerToMainMessage.fatal e2))).result
            = some (SandboxResult.err e2 s.progressMessages)))
    ∧ (∀ einfo ps, SandboxResult.isOk (SandboxResult.err einfo ps) = false)
    ∧ (∀ s c, (hostStep opts table s (HostEvent.workerMsg (WorkerToMainMessage.call c))).settled = s.settled
        ∧ (hostStep opts table s (HostEvent.workerMsg (WorkerToMainMessage.call c))).sentToWorker
            = s.sentToWorker ++ [handleWorkerCall table c]) := by
  refine ⟨?_, ?_, ?_, fun einfo ps => rfl, ?_⟩
  · intro h
    show (List.foldl (hostStep opts table) (initialHostState sess true) events).result.isSome = true
    exact foldl_hostStep_isSome opts table (initialHostState sess true) events
      (fun hh => by simp [initialHostState] at hh)
      (foldl_hostStep_settled_of_mem opts table events h (initialHostState sess true))
  · intro emsg
    simp [runHost, settle, initialHostState]
  · intro s hs
    refine ⟨?_, ?_, ?_⟩
    · simp [hostStep, settle, hs]
    · intro m; simp [hostStep, settle, hs]
    · intro e2; simp [hostStep, settle, hs]
  · intro s c
    exact ⟨by simp [hostStep], by simp [hostStep]⟩

/-- Witness for C1: a run receiving only the abort event resolves. -/
theorem executeInSandbox_never_rejects_witness :
    (runHost {} [] none [] [HostEvent.abort]).result.isSome = true :=
  (executeInSandbox_never_rejects {} [] [] [HostEvent.abort]).1
    ⟨HostEvent.abort, by decide, rfl⟩

/-- C2: settlement is exactly-once and idempotent. Starting from the initial
state with a created worker, the first settling event determines the result;
folding any further sequence of settling events changes neither the result
nor the teardown counters, the invocation stays settled, and the worker is
terminated and the blob URL revoked exactly once. On the worker-creation
failure path the result is produced immediately, the blob URL is revoked
exactly once, and no worker exists to terminate. -/
theorem settlement_exactly_once
    (opts : SandboxOpts) (table : DispatchTable) (sess : Session)
    (e : HostEvent) (rest : List HostEvent)
    (he : settlesEvent e = true) (_hrest : ∀ e2 ∈ rest, settlesEvent e2 = true) :
    (List.foldl (hostStep opts table) (hostStep opts table (initialHostState sess true) e) rest).result
        = (hostStep opts table (initialHostState sess true) e).result
    ∧ (hostStep opts table (initialHostState sess true) e).result.isSome = true
    ∧ (List.foldl (hostStep opts table) (hostStep opts table (initialHostState sess true) e) rest).settled = true
    ∧ (List.foldl (hostStep opts table) (hostStep opts table (initialHostState sess true) e) rest).terminateCount = 1
    ∧ (List.foldl (hostStep opts table) (hostStep opts table (initialHostState sess true) e) rest).revokeCount = 1
    ∧ (∀ emsg events2, (runHost opts table (some emsg) sess events2).result.isSome = true
        ∧ (runHost opts table (some emsg) sess events2).revokeCount = 1
        ∧ (runHost opts table (some emsg) sess events2).terminateCount = 0) := by
  have hinit : (initialHostState sess true).settled = false := rfl
  have h1 := hostStep_settling opts table (initialHostState sess true) e hinit he
  have hfr := foldl_hostStep_frozen opts table
    (hostStep opts table (initialHostState sess true) e) rest h1.1
  refine ⟨hfr.2.1, h1.2.1, hfr.1, ?_, ?_, ?_⟩
  · rw [hfr.2.2.1, h1.2.2.1]; rfl
  · rw [hfr.2.2.2, h1.2.2.2]; rfl
  · intro emsg events2
    refine ⟨?_, ?_, ?_⟩ <;> simp [runHost, settle, initialHostState]

/-- Witness for C2: abort settles first, a later done firing is a no-op and
teardown stays at one. -/
theorem settlement_exactly_once_witness :
    (List.foldl (hostStep {} []) (hostStep {} [] (initialHostState [] true) HostEvent.abort)
        [HostEvent.workerMsg (WorkerToMainMessage.done JSValue.null)]).terminateCount = 1 :=
  (settlement_exactly_once {} [] [] HostEvent.abort
    [HostEvent.workerMsg (WorkerToMainMessage.done JSValue.null)] rfl (by decide)).2.2.2.1

/-- C3: a script whose wrapped entry point completes without error with a
JSON-serializable value v (so v is not undefined) makes executeInSandbox
resolve with ok:true and value v, whatever non-terminal messages it emitted
before; in particular the script return 1+1 resolves with value 2 and an
empty progress list. -/
theorem execute_ok_value
    (opts : SandboxOpts) (table : DispatchTable) (sess : Session)
    (emitted : List WorkerToMainMessage)
    (hm : ∀ m ∈ emitted, nonTerminal m = true)
    (v : JSValue) (hv : v ≠ JSValue.undef) :
    (∃ ps, (runHost opts table none sess
        ((emitted ++ [WorkerToMainMessage.done (coalesceToNull v)]).map HostEvent.workerMsg)).result
      = some (SandboxResult.ok v ps))
    ∧ (executeInSandbox
        [SStmt.ret (SExpr.add (SExpr.lit (JSValue.num 1)) (SExpr.lit (JSValue.num 1)))]
        table sess opts).result
      = some (SandboxResult.ok (JSValue.num 2) []) := by
  constructor
  · have hmid := foldl_nonTerminal_settled opts table emitted hm (initialHostState sess true)
    refine ⟨(List.foldl (hostStep opts table) (initialHostState sess true)
      (emitted.map HostEvent.workerMsg)).progressMessages, ?_⟩
    show (List.foldl (hostStep opts table) (initialHostState sess true)
        ((emitted ++ [WorkerToMainMessage.done (coalesceToNull v)]).map HostEvent.workerMsg)).result = _
    rw [List.map_append, List.foldl_append]
    simp only [List.map_cons, List.map_nil, List.foldl_cons, List.foldl_nil]
    rw [coalesceToNull_of_ne_undef v hv]
    rw [hostStep_done_result opts table _ v (hmid.trans rfl)]
  · rfl

/-- Witness for C3: the concrete script return 1+1. -/
theorem execute_ok_value_witness :
    (executeInSandbox
        [SStmt.ret (SExpr.add (SExpr.lit (JSValue.num 1)) (SExpr.lit (JSValue.num 1)))]
        [] [] {}).result
      = some (SandboxResult.ok (JSValue.num 2) []) :=
  (execute_ok_value {} [] [] [] (by decide) (JSValue.num 7) (by decide)).2

/-- C4 counterexample: with a caller-configured timeout of 50 milliseconds
the timeout result message is the hardcoded "Script timed out after 30000ms"
and does not contain "50" — the claim that the message names the configured
duration fails. -/
theorem timeout_message_lacks_configured_duration :
    (runHost { timeoutMs := 50 } [] none [] [HostEvent.abort]).result
      = some (SandboxResult.err
          { message := "Script timed out after 30000ms",
            code := some "COMMAND_FAILED",
            fix := some "Break the script into smaller steps or increase the timeout." } [])
    ∧ strContains "Script timed out after 30000ms" (toString (50 : Nat)) = false := by
  exact ⟨by decide, by decide⟩

/-- C4 amended: when the timeout fires on an unsettled invocation the result
is ok:false with a message naming the default duration DEFAULT_TIMEOUT_MS
(30,000 ms) — regardless of the caller-configured timeout, which the code
never reads off the abort signal — plus the remediation fix to break the
script into smaller steps. -/
theorem timeout_result_names_default_duration
    (opts : SandboxOpts) (table : DispatchTable) (s : HostState) (h : s.settled = false) :
    (hostStep opts table s HostEvent.abort).result = some (timeoutResult s.progressMessages)
    ∧ timeoutResult s.progressMessages
        = SandboxResult.err
            { message := "Script timed out after " ++ toString DEFAULT_TIMEOUT_MS ++ "ms",
              code := some "COMMAND_FAILED",
              fix := some "Break the script into smaller steps or increase the timeout." }
            s.progressMessages
    ∧ strContains ("Script timed out after " ++ toString DEFAULT_TIMEOUT_MS ++ "ms")
        (toString DEFAULT_TIMEOUT_MS) = true := by
  refine ⟨?_, rfl, ?_⟩
  · simp [hostStep, settle, h]
  · exact strContains_append_left _ _ _ (strContains_append_right _ _ _ (strContains_refl _))

/-- Witness for the amended C4: the abort event on a fresh invocation with a
50 millisecond configured timeout. -/
theorem timeout_result_names_default_duration_witness :
    (hostStep { timeoutMs := 50 } [] (initialHostState [] true) HostEvent.abort).result
      = some (timeoutResult []) :=
  (timeout_result_names_default_duration { timeoutMs := 50 } [] (initialHostState [] true) rfl).1

/-- C5, the code behavior at the failing input: the script
progress("step1"); return "done"; run without a caller-supplied onProgress
callback records the progress text twice (the message handler pushes and the
defaulted onProgress pushes again), so the result carries
["step1", "step1"]; with a caller-supplied callback the text is recorded
once in the result and forwarded once, in order, to the callback. -/
theorem progress_double_recorded_without_callback :
    (executeInSandbox [SStmt.progressS "step1", SStmt.ret (SExpr.lit (JSValue.str "done"))]
        [] [] { hasOnProgress := false }).result
      = some (SandboxResult.ok (JSValue.str "done") ["step1", "step1"])
    ∧ (executeInSandbox [SStmt.progressS "step1", SStmt.ret (SExpr.lit (JSValue.str "done"))]
        [] [] { hasOnProgress := true }).result
      = some (SandboxResult.ok (JSValue.str "done") ["step1"])
    ∧ (executeInSandbox [SStmt.progressS "step1", SStmt.ret (SExpr.lit (JSValue.str "done"))]
        [] [] { hasOnProgress := true }).externalProgress = ["step1"] :=
  ⟨rfl, rfl, rfl⟩

/-- C6: a call message whose namespace.method key is not registered in the
dispatch table is answered with an Error response carrying the call id, code
INVALID_INPUT, a message naming the unresolved key, and a fix string
containing every registered dispatch-table key. -/
theorem handleWorkerCall_unknown_method
    (table : DispatchTable) (msg : WorkerCallMessage)
    (h : (msg.ns ++ "." ++ msg.method) ∉ table.map Prod.fst) :
    handleWorkerCall table msg
      = MainToWorkerMessage.error msg.id
          { message := "Unknown SDK method: " ++ (msg.ns ++ "." ++ msg.method),
            code := some "INVALID_INPUT",
            fix := some ("Use one of the documented asana.* methods. Available: "
              ++ joinStrings ", " (table.map Prod.fst)) }
    ∧ strContains ("Unknown SDK method: " ++ (msg.ns ++ "." ++ msg.method))
        (msg.ns ++ "." ++ msg.method) = true
    ∧ ∀ k ∈ table.map Prod.fst,
        strContains ("Use one of the documented asana.* methods. Available: "
          ++ joinStrings ", " (table.map Prod.fst)) k = true := by
  refine ⟨?_, ?_, ?_⟩
  · simp [handleWorkerCall, findFn_eq_none table _ h]
  · exact strContains_append_right _ _ _ (strContains_refl _)
  · intro k hk
    exact strContains_append_right _ _ _ (strContains_joinStrings _ _ _ hk)

/-- Witness for C6: the unregistered key unknown.op against the full source
dispatch table. -/
theorem handleWorkerCall_unknown_method_witness :
    strContains ("Unknown SDK method: " ++ ("unknown" ++ "." ++ "op"))
      ("unknown" ++ "." ++ "op") = true :=
  (handleWorkerCall_unknown_method
    (createDispatchTable (fun _ _ => Except.ok JSValue.null))
    { id := 0, ns := "unknown", method := "op", args := [] } (by decide)).2.1

/-- C7: RateLimiter.acquire follows the sliding-window algorithm and blocks
rather than rejecting. On a sorted timestamp list bounded by now, acquire
evicts exactly the timestamps older than now minus the window; when fewer
than RATE_LIMIT_RPM remain it records now and waits 0; otherwise it waits
window - (now - oldest) + 10 milliseconds (at least 10) and records the
post-wait time; in every case the wait is finite, between 0 and window + 10,
so every acquire call eventually proceeds. -/
theorem rateLimiter_acquire_sliding_window
    (ts : List Int) (now : Int)
    (hsorted : List.Pairwise (fun a b => a ≤ b) ts)
    (hle : ∀ t ∈ ts, t ≤ now) :
    (RateLimiter.acquire ts now).timestamps
        = evictOld ts now ++ [now + (RateLimiter.acquire ts now).waited]
    ∧ ((evictOld ts now).length < RATE_LIMIT_RPM → (RateLimiter.acquire ts now).waited = 0)
    ∧ (RATE_LIMIT_RPM ≤ (evictOld ts now).length →
        (RateLimiter.acquire ts now).waited
          = RATE_WINDOW_MS - (now - (evictOld ts now).headD now) + 10
        ∧ 10 ≤ (RateLimiter.acquire ts now).waited)
    ∧ 0 ≤ (RateLimiter.acquire ts now).waited
    ∧ (RateLimiter.acquire ts now).waited ≤ RATE_WINDOW_MS + 10 := by
  have hkept : ts.dropWhile (fun t => decide (t < now - RATE_WINDOW_MS)) = evictOld ts now :=
    dropWhile_lt_eq_filter (now - RATE_WINDOW_MS) ts hsorted
  have hacq : RateLimiter.acquire ts now =
      (if RATE_LIMIT_RPM ≤ (evictOld ts now).length then
        { timestamps := evictOld ts now
            ++ [now + (RATE_WINDOW_MS - (now - (evictOld ts now).headD now) + 10)],
          waited := RATE_WINDOW_MS - (now - (evictOld ts now).headD now) + 10 }
      else { timestamps := evictOld ts now ++ [now], waited := 0 }) := by
    simp only [RateLimiter.acquire]
    rw [hkept]
  have hW : RATE_WINDOW_MS = (60000 : Int) := rfl
  by_cases hlen : RATE_LIMIT_RPM ≤ (evictOld ts now).length
  · have hwait : (RateLimiter.acquire ts now).waited
        = RATE_WINDOW_MS - (now - (evictOld ts now).headD now) + 10 := by
      rw [hacq, if_pos hlen]
    have htsx : (RateLimiter.acquire ts now).timestamps
        = evictOld ts now ++ [now + (RateLimiter.acquire ts now).waited] := by
      rw [hwait, hacq, if_pos hlen]
    obtain ⟨o, os, hk⟩ : ∃ o os, evictOld ts now = o :: os := by
      cases hcase : evictOld ts now with
      | nil =>
          rw [hcase] at hlen
          exact absurd hlen (by decide)
      | cons o os => exact ⟨o, os, rfl⟩
    have ho : o ∈ evictOld ts now := by
      rw [hk]; exact List.mem_cons_self o os
    have h1 : now - RATE_WINDOW_MS ≤ o := of_decide_eq_true (List.mem_filter.mp ho).2
    have h2 : o ≤ now := hle o (List.mem_filter.mp ho).1
    have hhead : (evictOld ts now).headD now = o := by rw [hk]; rfl
    refine ⟨htsx, fun hcon => absurd hlen (not_le.mpr hcon),
      fun _ => ⟨hwait, ?_⟩, ?_, ?_⟩
    · rw [hwait, hhead]; omega
    · rw [hwait, hhead]; omega
    · rw [hwait, hhead]; omega
  · have hwait : (RateLimiter.acquire ts now).waited = 0 := by
      rw [hacq, if_neg hlen]
    have htsx : (RateLimiter.acquire ts now).timestamps = evictOld ts now ++ [now] := by
      rw [hacq, if_neg hlen]
    refine ⟨?_, fun _ => hwait, fun hcon => absurd hcon hlen, ?_, ?_⟩
    · rw [htsx, hwait]
      simp
    · rw [hwait]
    · rw [hwait, hW]
      omega

/-- Witness for C7: one hundred fifty timestamps already inside the window
force the blocking branch with a wait of at least 10 milliseconds. -/
theorem rateLimiter_acquire_sliding_window_witness :
    10 ≤ (RateLimiter.acquire (List.replicate 150 (0 : Int)) 0).waited := by
  have hp : List.Pairwise (fun a b => a ≤ b) (List.replicate 150 (0 : Int)) :=
    List.pairwise_replicate.mpr (Or.inr (le_refl 0))
  have hle : ∀ t ∈ List.replicate 150 (0 : Int), t ≤ 0 :=
    fun t ht => le_of_eq (List.eq_of_mem_replicate ht)
  have hev : evictOld (List.replicate 150 (0 : Int)) 0 = List.replicate 150 (0 : Int) :=
    List.filter_eq_self.mpr (fun a ha => by
      have h0 : a = 0 := List.eq_of_mem_replicate ha
      subst h0
      decide)
  have hlen : RATE_LIMIT_RPM ≤ (evictOld (List.replicate 150 (0 : Int)) 0).length := by
    rw [hev, List.length_replicate]
    decide
  exact ((rateLimiter_acquire_sliding_window (List.replicate 150 (0 : Int)) 0 hp hle).2.2.1
    hlen).2

/-- C8: a session write performed inside a script as context.k = v reaches
the store and the snapshot. Applying the session-update for k, v and taking
the snapshot maps k to v; the host step for a session-update message applies
exactly that update to the live store; and a sequence of sequential writes
folded into the store reads back as the last write per key (falling back to
the prior store content), so later writes to the same key win. -/
theorem session_write_reflected_in_snapshot :
    (∀ (s : Session) (k : String) (v : JSValue),
        getMap (snapshotSession (applySessionUpdate s k v)) k = some v)
    ∧ (∀ (opts : SandboxOpts) (table : DispatchTable) (st : HostState) (k : String) (v : JSValue),
        (hostStep opts table st (HostEvent.workerMsg (WorkerToMainMessage.sessionUpdate k v))).session
          = applySessionUpdate st.session k v)
    ∧ (∀ (s : Session) (ws : List (String × JSValue)) (k : String),
        getMap (snapshotSession
            (List.foldl (fun st p => applySessionUpdate st p.1 p.2) s ws)) k
          = firstSome (getMap (List.reverse ws) k) (getMap s k)) := by
  refine ⟨?_, ?_, ?_⟩
  · intro s k v
    simp [snapshotSession, applySessionUpdate, getMap_mapSet]
  · intro opts table st k v
    simp [hostStep]
  · intro s ws k
    induction ws generalizing s with
    | nil => simp [snapshotSession, getMap, firstSome]
    | cons p rest ih =>
        obtain ⟨pk, pv⟩ := p
        rw [List.foldl_cons, List.reverse_cons, ih, getMap_append]
        simp only [snapshotSession, applySessionUpdate, getMap_mapSet]
        by_cases hp : pk = k
        · cases hA : getMap (List.reverse rest) k <;> simp [firstSome, getMap, hp]
        · cases hA : getMap (List.reverse rest) k <;> simp [firstSome, getMap, hp]

/-- C9: a script that throws inside the wrapped entry point makes the
wrapper post a fatal message (the error does not escape), the extracted
error carries the thrown message — falling back to the stringified value
when the thrown value has no message — together with its code and fix
fields, and executeInSandbox resolves ok:false with exactly that error. -/
theorem script_throw_posts_fatal
    (opts : SandboxOpts) (table : DispatchTable) (sess : Session)
    (emitted : List WorkerToMainMessage)
    (hm : ∀ m ∈ emitted, nonTerminal m = true) (t : JSThrown) :
    workerFinalMessage (ScriptOutcome.throws t)
        = WorkerToMainMessage.fatal (thrownToErrorInfo t)
    ∧ (∀ m c f srep, thrownToErrorInfo (JSThrown.errObj m c f srep)
        = { message := m, code := c, fix := f })
    ∧ (∀ srep, thrownToErrorInfo (JSThrown.nonError srep)
        = { message := srep, code := none, fix := none })
    ∧ (∃ ps, (runHost opts table none sess
        ((emitted ++ [WorkerToMainMessage.fatal (thrownToErrorInfo t)]).map HostEvent.workerMsg)).result
      = some (SandboxResult.err (thrownToErrorInfo t) ps)) := by
  refine ⟨rfl, fun m c f srep => rfl, fun srep => rfl, ?_⟩
  have hmid := foldl_nonTerminal_settled opts table emitted hm (initialHostState sess true)
  refine ⟨(List.foldl (hostStep opts table) (initialHostState sess true)
    (emitted.map HostEvent.workerMsg)).progressMessages, ?_⟩
  show (List.foldl (hostStep opts table) (initialHostState sess true)
      ((emitted ++ [WorkerToMainMessage.fatal (thrownToErrorInfo t)]).map HostEvent.workerMsg)).result = _
  rw [List.map_append, List.foldl_append]
  simp only [List.map_cons, List.map_nil, List.foldl_cons, List.foldl_nil]
  exact hostStep_fatal_result opts table _ (thrownToErrorInfo t) (hmid.trans rfl)

/-- Witness for C9: a thrown non-error value with string rendering boom. -/
theorem script_throw_posts_fatal_witness :
    workerFinalMessage (ScriptOutcome.throws (JSThrown.nonError "boom"))
      = WorkerToMainMessage.fatal (thrownToErrorInfo (JSThrown.nonError "boom")) :=
  (script_throw_posts_fatal {} [] [] [] (by decide) (JSThrown.nonError "boom")).1

/-- C10: a script whose entry point completes without error but with no
value completes with undefined, which the wrapper coalesces to null before
posting done, so executeInSandbox resolves ok:true with value null; in
particular the empty script yields ok:true, null, no progress. -/
theorem undefined_completion_value_null
    (opts : SandboxOpts) (table : DispatchTable) (sess : Session)
    (emitted : List WorkerToMainMessage)
    (hm : ∀ m ∈ emitted, nonTerminal m = true) :
    coalesceToNull JSValue.undef = JSValue.null
    ∧ workerFinalMessage (ScriptOutcome.completes JSValue.undef)
        = WorkerToMainMessage.done JSValue.null
    ∧ (∃ ps, (runHost opts table none sess
        ((emitted ++ [workerFinalMessage (ScriptOutcome.completes JSValue.undef)]).map HostEvent.workerMsg)).result
      = some (SandboxResult.ok JSValue.null ps))
    ∧ (executeInSandbox [] table sess opts).result
        = some (SandboxResult.ok JSValue.null []) := by
  refine ⟨rfl, rfl, ?_, rfl⟩
  have hmid := foldl_nonTerminal_settled opts table emitted hm (initialHostState sess true)
  refine ⟨(List.foldl (hostStep opts table) (initialHostState sess true)
    (emitted.map HostEvent.workerMsg)).progressMessages, ?_⟩
  show (List.foldl (hostStep opts table) (initialHostState sess true)
      ((emitted ++ [workerFinalMessage (ScriptOutcome.completes JSValue.undef)]).map HostEvent.workerMsg)).result = _
  rw [List.map_append, List.foldl_append]
  simp only [List.map_cons, List.map_nil, List.foldl_cons, List.foldl_nil]
  rw [show workerFinalMessage (ScriptOutcome.completes JSValue.undef)
    = WorkerToMainMessage.done JSValue.null from rfl]
  rw [hostStep_done_result opts table _ JSValue.null (hmid.trans rfl)]

/-- Witness for C10: the empty script. -/
theorem undefined_completion_value_null_witness :
    (executeInSandbox [] [] [] {}).result = some (SandboxResult.ok JSValue.null []) :=
  (undefined_completion_value_null {} [] [] [] (by decide)).2.2.2
